import Mathlib

/-!
Verification of the notification delivery subsystem of
`notification_system.py` (classes `NotificationTemplate`, `AlertRule`,
`Notification`, `NotificationDatabase`, `AlertRuleManager`,
`NotificationWorker`, `NotificationSystem`) against its natural-language
specification.

Modelling conventions, fixed once for the whole file:
* time is measured in whole minutes (an `Int`); `timedelta(minutes=b)`
  becomes integer addition, which is exact because every delay the code
  computes is a whole number of minutes;
* the transport adapter outcome of one delivery attempt is the pair
  returned by `SMTPEmailSender.send_email`: a success flag and an
  optional error string;
* Python exceptions raised by rule conditions are modelled by `Except`;
* the side effects of one worker pass (transport call, audit append,
  store save) are reified as an explicit effect list so that frame
  claims ("no store writes") are statable;
* strings are Lean `String`s, and the character-level operations of the
  template engine (`str.replace`) and of the persistence layer
  (`json.dumps` / `json.loads`, `datetime.isoformat` /
  `datetime.fromisoformat`) are implemented on `List Char`.
-/

/-- `NotificationLevel` enum of the source. -/
inductive NotificationLevel where
  | debug | info | warning | error | critical
deriving DecidableEq, Repr

/-- `NotificationStatus` enum of the source. -/
inductive NotificationStatus where
  | pending | sent | failed | retrying | archived
deriving DecidableEq, Repr

/-- `AlertRuleType` enum of the source. -/
inductive AlertRuleType where
  | threshold | event | time_based | pattern
deriving DecidableEq, Repr

/-- The `Notification` dataclass.  `τ` is the representation of
`datetime` values: the worker claims use `Int` (minutes), the
persistence claims use the structured `DateTime` defined below.
`metadata` is the caller-supplied dict, whose values are strings in
every use the repository makes of it. -/
structure Notification (τ : Type) where
  id : String
  level : NotificationLevel
  subject : String
  body : String
  recipients : List String
  status : NotificationStatus
  created_at : τ
  sent_at : Option τ
  retry_count : Nat
  max_retries : Nat
  next_retry : Option τ
  error_message : Option String
  metadata : List (String × String)
deriving DecidableEq, Repr

/-- A notification as the facade's `send_notification` constructs it:
every field the constructor call does not mention has its dataclass
default (`status=PENDING`, `retry_count=0`, `max_retries=3`,
`sent_at=None`, `next_retry=None`, `error_message=None`). -/
def freshNotification (id : String) (level : NotificationLevel)
    (subject body : String) (recipients : List String)
    (metadata : List (String × String)) (now : Int) : Notification Int :=
  { id := id, level := level, subject := subject, body := body
    recipients := recipients, status := .pending, created_at := now
    sent_at := none, retry_count := 0, max_retries := 3
    next_retry := none, error_message := none, metadata := metadata }

/-- One observable side effect of a worker pass:
a transport-adapter call (`SMTPEmailSender.send_email`), an audit append
(`NotificationDatabase.log_audit_event`, identified by notification id
and event name), or a store write (`NotificationDatabase.save_notification`). -/
inductive Effect where
  | adapterCall (recipients : List String) (subject body : String)
  | audit (notification_id : String) (event : String)
  | save (n : Notification Int)
deriving DecidableEq, Repr

/-- Outcome of `NotificationWorker._send_notification`'s call into the
transport adapter: the success flag and the error string reported by
`send_email`. -/
structure DeliverResult where
  success : Bool
  error : Option String
deriving DecidableEq, Repr

/-- `NotificationWorker._process_notification`, for a worker whose
transport adapter replies `res` to the one delivery attempt the pass
makes, at current time `now`.  Returns the updated notification and the
list of effects in program order.  Faithful points: an already-SENT
notification returns before any effect; `_send_notification` stores the
error string on the notification before the status logic runs, and
leaves `error_message` untouched on success; the backoff is
`min(2 ** retry_count, 60)` minutes computed after the increment;
only the success branch appends an audit event; every non-SENT pass
ends in exactly one `save`. -/
def process_notification (n : Notification Int) (res : DeliverResult)
    (now : Int) : Notification Int × List Effect :=
  if n.status = .sent then (n, [])
  else
    let call := Effect.adapterCall n.recipients n.subject n.body
    if res.success then
      let n' := { n with status := .sent, sent_at := some now }
      (n', [call, .audit n.id "SENT", .save n'])
    else
      let n₀ := { n with error_message := res.error }
      if n₀.retry_count < n₀.max_retries then
        let rc := n₀.retry_count + 1
        let backoff : Nat := min (2 ^ rc) 60
        let n' := { n₀ with retry_count := rc, status := .retrying
                            next_retry := some (now + backoff) }
        (n', [call, .save n'])
      else
        let n' := { n₀ with status := .failed }
        (n', [call, .save n'])

/-- The notification states reachable from the operations the system
performs on them: creation by the facade (`send_notification` /
`handle_event`, always with the dataclass defaults) followed by any
number of worker passes with arbitrary adapter outcomes at arbitrary
times.  The second component records the outcome of the most recent
delivery attempt (`none` while no attempt has been made; a pass on an
already-SENT notification makes no attempt). -/
inductive Reach : Notification Int → Option Bool → Prop where
  | create (id : String) (level : NotificationLevel) (subject body : String)
      (recipients : List String) (metadata : List (String × String)) (now : Int) :
      Reach (freshNotification id level subject body recipients metadata now) none
  | step {n : Notification Int} {last : Option Bool} (res : DeliverResult) (now : Int) :
      Reach n last →
      Reach (process_notification n res now).1
        (if n.status = .sent then last else some res.success)

/-- The worker loop's due-time gate on persisted notifications:
`if notification.next_retry and notification.next_retry > datetime.utcnow(): continue`,
so a notification is processed iff its `next_retry` is unset or not in
the future. -/
def retryDue (n : Notification Int) (now : Int) : Bool :=
  match n.next_retry with
  | none => true
  | some t => decide (t ≤ now)

/-- `AlertRuleType.value` (the `.value` attribute of the Python enum). -/
def AlertRuleType.value : AlertRuleType → String
  | .threshold => "THRESHOLD"
  | .event => "EVENT"
  | .time_based => "TIME_BASED"
  | .pattern => "PATTERN"

/-- The `AlertRule` dataclass.  `π` is the type of event payloads; a
condition that raises an exception is modelled by `Except.error`. -/
structure AlertRule (π : Type) where
  name : String
  rule_type : AlertRuleType
  condition : π → Except String Bool
  notification_level : NotificationLevel
  recipients : List String
  enabled : Bool := true
  description : String := ""

/-- `AlertRule.matches`: evaluates the condition inside a
`try`/`except` that logs and returns `False` on any exception. -/
def AlertRule.matches {π : Type} (r : AlertRule π) (event_data : π) : Bool :=
  match r.condition event_data with
  | .ok b => b
  | .error _ => false

/-- `AlertRuleManager.get_enabled_rules`.  The manager's `self.rules`
dict preserves registration order, so the registry is modelled as the
list of rules in registration order. -/
def get_enabled_rules {π : Type} (rules : List (AlertRule π)) : List (AlertRule π) :=
  rules.filter (·.enabled)

/-- `AlertRuleManager.evaluate_event`: appends each enabled rule that
matches, in order. -/
def evaluate_event {π : Type} (rules : List (AlertRule π)) (event_data : π) :
    List (AlertRule π) :=
  (get_enabled_rules rules).filter (fun r => r.matches event_data)

/-- One observable side effect of a facade call: the initial
`db.save_notification` and the `worker.add_notification` enqueue that
`NotificationSystem.send_notification` performs. -/
inductive FacadeEffect where
  | save (n : Notification Int)
  | enqueue (n : Notification Int)
deriving DecidableEq, Repr

/-- `NotificationSystem.send_notification`: builds a fresh notification
(with the dataclass defaults), saves it, enqueues it for the worker and
returns its id.  The generated id is passed in explicitly
(`generate_notification_id` draws on the clock and `random`, modelled
as an external id supply). -/
def send_notification (level : NotificationLevel) (recipients : List String)
    (subject body : String) (metadata : List (String × String))
    (id : String) (now : Int) : String × List FacadeEffect :=
  let n := freshNotification id level subject body recipients metadata now
  (n.id, [.save n, .enqueue n])

/-- The body of `handle_event`'s loop over the matched rules: the `i`-th
`send_notification` call uses the `i`-th id from the supply `gen`.
`dump` models `json.dumps(event_data, indent=2)`. -/
def handle_event_go {π : Type} (gen : Nat → String) (now : Int) (dump : π → String)
    (event_data : π) : Nat → List (AlertRule π) → List String × List FacadeEffect
  | _, [] => ([], [])
  | i, r :: rs =>
    let (id, effs) := send_notification r.notification_level r.recipients
      ("Alert: " ++ r.name)
      ("Alert rule '" ++ r.name ++ "' triggered:\n\n" ++ dump event_data)
      [("rule_name", r.name), ("rule_type", r.rule_type.value)]
      (gen i) now
    let (ids, effs') := handle_event_go gen now dump event_data (i + 1) rs
    (id :: ids, effs ++ effs')

/-- `NotificationSystem.handle_event`: evaluates the rules against the
payload and sends one notification per matched rule, returning the ids
in match order. -/
def handle_event {π : Type} (rules : List (AlertRule π)) (event_data : π)
    (gen : Nat → String) (now : Int) (dump : π → String) :
    List String × List FacadeEffect :=
  handle_event_go gen now dump event_data 0 (evaluate_event rules event_data)

/-- `NotificationDatabase.cleanup_old_notifications`: the SQL
`UPDATE notifications SET status = ARCHIVED WHERE created_at < cutoff AND status = SENT`
over the notifications table (modelled as the list of its rows), with
`cutoff = now - days` and `cursor.rowcount` the number of rows the
`WHERE` clause matched.  Timestamps are minutes, so `days` is
`days * 1440` minutes; the SQL comparison of ISO-8601 strings agrees
with the chronological order the `Int` encodes. -/
def cleanup_old_notifications (rows : List (Notification Int)) (days : Nat)
    (now : Int) : List (Notification Int) × Nat :=
  let cutoff : Int := now - (days * 1440 : Nat)
  (rows.map fun n =>
      if n.created_at < cutoff ∧ n.status = .sent then { n with status := .archived } else n,
   (rows.filter fun n => decide (n.created_at < cutoff ∧ n.status = .sent)).length)

/-- Python `str.replace` on character lists: scans left to right and
replaces each leftmost non-overlapping occurrence of `needle` by
`repl`.  The source only ever calls it with the nonempty needle
`"\x7b\x7b" ++ var ++ "\x7d\x7d"`, so the empty-needle case (which
Python treats as inserting between every character) is guarded away.
The recursion is structural in a fuel argument so that the function
computes in the kernel; `strReplace` instantiates the fuel with the
input length, which the scan can never exhaust. -/
def strReplaceAux (needle repl : List Char) : Nat → List Char → List Char
  | 0, l => l
  | fuel + 1, l =>
    match l with
    | [] => []
    | c :: rest =>
      if needle ≠ [] ∧ needle.isPrefixOf (c :: rest) then
        repl ++ strReplaceAux needle repl fuel ((c :: rest).drop needle.length)
      else
        c :: strReplaceAux needle repl fuel rest

/-- Python `str.replace` itself.  Every recursive step of the scan
consumes at least one character, so fuel equal to the input length
makes `strReplaceAux` total on the scan (`strReplaceAux_fuel` below
shows the fuel is irrelevant beyond that). -/
def strReplace (needle repl l : List Char) : List Char :=
  strReplaceAux needle repl l.length l

/-- The placeholder `f"\x7b\x7b\x7b\x7b\x7b{var}\x7d\x7d\x7d\x7d\x7d"`
built for a context key, i.e. the key wrapped in double braces. -/
def placeholder (var : String) : List Char :=
  '{' :: '{' :: var.data ++ ['}', '}']

/-- `str.replace` lifted to `String`. -/
def replaceAllStr (s needle repl : String) : String :=
  String.mk (strReplace needle.data repl.data s.data)

/-- The `NotificationTemplate` dataclass.  The source's `variables`
field (a keyword in Lean) is named `declared_variables`; per the spec
it is documentation only and rendering never consults it. -/
structure NotificationTemplate where
  name : String
  subject : String
  body : String
  template_type : String := "html"
  declared_variables : List String := []

/-- `NotificationTemplate.render`: for each `(var, value)` pair of the
context, in dict iteration (= insertion) order, replaces every
occurrence of the placeholder in subject and body.  Context values are
the already-stringified `str(value)`. -/
def NotificationTemplate.render (t : NotificationTemplate)
    (context : List (String × String)) : String × String :=
  (context.foldl (fun s kv => replaceAllStr s (String.mk (placeholder kv.1)) kv.2) t.subject,
   context.foldl (fun b kv => replaceAllStr b (String.mk (placeholder kv.1)) kv.2) t.body)

/-- A character list containing neither brace character.  Keys of a
`\x7b\x7bkey\x7d\x7d` placeholder are brace-free by construction of the
syntax, and the round-trip statements about rendering are made for such
keys. -/
def braceFree (l : List Char) : Prop :=
  ∀ c ∈ l, c ≠ '{' ∧ c ≠ '}'

/-- `placeholder` on raw character lists. -/
def phData (k : List Char) : List Char :=
  '{' :: '{' :: k ++ ['}', '}']

/-- A well-formed placeholder key: nonempty and brace-free. -/
def wfKeyData (k : List Char) : Prop :=
  k ≠ [] ∧ braceFree k

/-- A well-formed placeholder key, on `String`s. -/
def wfKey (k : String) : Prop :=
  wfKeyData k.data

instance (l : List Char) : Decidable (braceFree l) :=
  decidable_of_iff (∀ c ∈ l, c ≠ '{' ∧ c ≠ '}') Iff.rfl

instance (k : List Char) : Decidable (wfKeyData k) :=
  decidable_of_iff (k ≠ [] ∧ braceFree k) Iff.rfl

instance (k : String) : Decidable (wfKey k) :=
  decidable_of_iff (wfKeyData k.data) Iff.rfl

/-- Template text in the `\x7b\x7bvar\x7d\x7d` placeholder syntax: a
concatenation of brace-free characters and complete placeholders with
well-formed keys.  All the repository's templates are of this shape;
the full-substitution statement for present keys is made for such
text. -/
inductive Clean : List Char → Prop where
  | nil : Clean []
  | chr {c : Char} (hc : c ≠ '{' ∧ c ≠ '}') {rest : List Char} (h : Clean rest) :
      Clean (c :: rest)
  | seg {k : List Char} (hk : wfKeyData k) {rest : List Char} (h : Clean rest) :
      Clean (phData k ++ rest)

/-- A `datetime` value as the persistence layer sees it (the fields
`isoformat` prints). -/
structure DateTime where
  year : Nat
  month : Nat
  day : Nat
  hour : Nat
  minute : Nat
  second : Nat
  microsecond : Nat
deriving DecidableEq, Repr

/-- The decimal digit characters. -/
def digitChar : Nat → Char
  | 0 => '0' | 1 => '1' | 2 => '2' | 3 => '3' | 4 => '4'
  | 5 => '5' | 6 => '6' | 7 => '7' | 8 => '8' | 9 => '9'
  | _ => '0'

/-- Zero-padded fixed-width decimal printing (`"%0*d"`), most
significant digit first. -/
def padNum : Nat → Nat → List Char
  | 0, _ => []
  | w + 1, n => digitChar (n / 10 ^ w) :: padNum w (n % 10 ^ w)

/-- Reads exactly `w` decimal digits, accumulating onto `acc`. -/
def readNumAux : Nat → Nat → List Char → Option (Nat × List Char)
  | acc, 0, cs => some (acc, cs)
  | _, _ + 1, [] => none
  | acc, w + 1, c :: cs =>
    if c.isDigit then readNumAux (acc * 10 + (c.toNat - 48)) w cs else none

/-- Reads a fixed-width decimal number. -/
def readNum (w : Nat) (cs : List Char) : Option (Nat × List Char) :=
  readNumAux 0 w cs

/-- `datetime.isoformat()`:
`YYYY-MM-DDTHH:MM:SS` followed by `.ffffff` exactly when the
microsecond field is nonzero. -/
def isoChars (d : DateTime) : List Char :=
  padNum 4 d.year ++ '-' :: (padNum 2 d.month ++ '-' :: (padNum 2 d.day ++
    'T' :: (padNum 2 d.hour ++ ':' :: (padNum 2 d.minute ++ ':' :: (padNum 2 d.second ++
      (if d.microsecond = 0 then [] else '.' :: padNum 6 d.microsecond))))))

/-- `datetime.isoformat()` as a `String`. -/
def isoformat (d : DateTime) : String :=
  String.mk (isoChars d)

/-- Consumes one expected literal character. -/
def expectChar (c : Char) : List Char → Option (List Char)
  | [] => none
  | x :: xs => if x = c then some xs else none

/-- `datetime.fromisoformat` restricted to the strings `isoformat`
produces (the only strings the store ever feeds it). -/
def fromisoChars (cs : List Char) : Option DateTime := do
  let (y, cs) ← readNum 4 cs
  let cs ← expectChar '-' cs
  let (mo, cs) ← readNum 2 cs
  let cs ← expectChar '-' cs
  let (da, cs) ← readNum 2 cs
  let cs ← expectChar 'T' cs
  let (h, cs) ← readNum 2 cs
  let cs ← expectChar ':' cs
  let (mi, cs) ← readNum 2 cs
  let cs ← expectChar ':' cs
  let (s, cs) ← readNum 2 cs
  match cs with
  | [] => some ⟨y, mo, da, h, mi, s, 0⟩
  | '.' :: cs₂ =>
    match readNum 6 cs₂ with
    | some (us, []) => some ⟨y, mo, da, h, mi, s, us⟩
    | _ => none
  | _ => none

/-- `datetime.fromisoformat` on a `String`. -/
def fromisoformat (s : String) : Option DateTime :=
  fromisoChars s.data

/-- `json.dumps` escaping of string content, for the character range
the round-trip theorem admits (printable ASCII): `"` and `\` get a
backslash escape, every other admitted character is written raw. -/
def escChars : List Char → List Char
  | [] => []
  | c :: cs =>
    if c = '"' ∨ c = '\\' then '\\' :: c :: escChars cs else c :: escChars cs

/-- A JSON string literal: `"` content `"` with `escChars` escaping. -/
def jstr (s : String) : List Char :=
  '"' :: escChars s.data ++ ['"']

/-- `json.loads` reading of a string literal body (the opening quote
already consumed): returns the unescaped content and the characters
after the closing quote.  Structural in a fuel argument (callers pass
the input length, which the scan cannot exhaust) so that it computes
in the kernel. -/
def readJStringAux : Nat → List Char → Option (List Char × List Char)
  | 0, _ => none
  | _ + 1, [] => none
  | fuel + 1, c :: cs =>
    if c = '"' then some ([], cs)
    else if c = '\\' then
      match cs with
      | [] => none
      | e :: cs₂ =>
        if e = '"' ∨ e = '\\' then
          (readJStringAux fuel cs₂).map (fun p => (e :: p.1, p.2))
        else none
    else
      (readJStringAux fuel cs).map (fun p => (c :: p.1, p.2))

/-- Joins pre-rendered items with `json.dumps`'s default item separator
`", "`. -/
def sepList : List (List Char) → List Char
  | [] => []
  | [x] => x
  | x :: y :: xs => x ++ ',' :: ' ' :: sepList (y :: xs)

/-- `json.dumps` of a list of strings (how `save_notification`
serializes `recipients`). -/
def dumpsStrList (l : List String) : List Char :=
  '[' :: sepList (l.map jstr) ++ [']']

/-- `json.loads` of the items of a nonempty JSON array of strings,
fuelled by the input length. -/
def readStrItems : Nat → List Char → Option (List String × List Char)
  | 0, _ => none
  | _ + 1, [] => none
  | fuel + 1, c :: cs =>
    if c = '"' then
      match readJStringAux cs.length cs with
      | none => none
      | some (content, cs₁) =>
        match cs₁ with
        | ']' :: rest => some ([String.mk content], rest)
        | ',' :: ' ' :: cs₂ =>
          (readStrItems fuel cs₂).map (fun p => (String.mk content :: p.1, p.2))
        | _ => none
    else none

/-- `json.loads` of a JSON array of strings, restricted (like the other
`loads` models in this file) to the serialized text `json.dumps`
produces, which is the only text the store ever hands it. -/
def loadsStrList (s : String) : Option (List String) :=
  match s.data with
  | '[' :: cs =>
    if cs = [']'] then some []
    else
      match readStrItems cs.length cs with
      | some (l, []) => some l
      | _ => none
  | _ => none

/-- `json.loads` of the members of a nonempty JSON object with string
values (how `metadata` comes back), fuelled by the input length. -/
def readStrPairs : Nat → List Char → Option (List (String × String) × List Char)
  | 0, _ => none
  | _ + 1, [] => none
  | fuel + 1, c :: cs =>
    if c = '"' then
      match readJStringAux cs.length cs with
      | none => none
      | some (k, cs₁) =>
        match cs₁ with
        | ':' :: ' ' :: '"' :: cs₂ =>
          match readJStringAux cs₂.length cs₂ with
          | none => none
          | some (v, cs₃) =>
            match cs₃ with
            | '}' :: rest => some ([(String.mk k, String.mk v)], rest)
            | ',' :: ' ' :: cs₄ =>
              (readStrPairs fuel cs₄).map
                (fun p => ((String.mk k, String.mk v) :: p.1, p.2))
            | _ => none
        | _ => none
    else none

/-- `json.dumps` of a string-valued dict in insertion order (the
`metadata` serialization), with `json.dumps`'s default separators. -/
def dumpsStrMap (m : List (String × String)) : List Char :=
  '{' :: sepList (m.map (fun kv => jstr kv.1 ++ ':' :: ' ' :: jstr kv.2)) ++ ['}']

/-- `json.loads` of a JSON object with string values. -/
def loadsStrMap (s : String) : Option (List (String × String)) :=
  match s.data with
  | '{' :: cs =>
    if cs = ['}'] then some []
    else
      match readStrPairs cs.length cs with
      | some (m, []) => some m
      | _ => none
  | _ => none

/-- `NotificationLevel.value` (the `.value` attribute serialized into
the `level` column). -/
def NotificationLevel.value : NotificationLevel → String
  | .debug => "DEBUG"
  | .info => "INFO"
  | .warning => "WARNING"
  | .error => "ERROR"
  | .critical => "CRITICAL"

/-- The `NotificationLevel(str)` enum constructor; raising `ValueError`
on an unknown value becomes `none`. -/
def NotificationLevel.ofValue (s : String) : Option NotificationLevel :=
  if s = "DEBUG" then some .debug
  else if s = "INFO" then some .info
  else if s = "WARNING" then some .warning
  else if s = "ERROR" then some .error
  else if s = "CRITICAL" then some .critical
  else none

/-- `NotificationStatus.value`. -/
def NotificationStatus.value : NotificationStatus → String
  | .pending => "PENDING"
  | .sent => "SENT"
  | .failed => "FAILED"
  | .retrying => "RETRYING"
  | .archived => "ARCHIVED"

/-- The `NotificationStatus(str)` enum constructor. -/
def NotificationStatus.ofValue (s : String) : Option NotificationStatus :=
  if s = "PENDING" then some .pending
  else if s = "SENT" then some .sent
  else if s = "FAILED" then some .failed
  else if s = "RETRYING" then some .retrying
  else if s = "ARCHIVED" then some .archived
  else none

/-- One row of the `notifications` table, column for column (TEXT
columns are `String`, nullable TEXT columns `Option String`, INTEGER
columns the numbers themselves). -/
structure DbRow where
  id : String
  level : String
  subject : String
  body : String
  recipients : String
  status : String
  created_at : String
  sent_at : Option String
  retry_count : Nat
  max_retries : Nat
  next_retry : Option String
  error_message : Option String
  metadata : Option String
deriving DecidableEq, Repr

/-- The serialization `save_notification` performs when binding its SQL
parameters: enum `.value` strings, `isoformat` for the datetimes (with
`None` passed through as NULL), `json.dumps` for recipients and
metadata. -/
def encodeRow (n : Notification DateTime) : DbRow :=
  { id := n.id
    level := n.level.value
    subject := n.subject
    body := n.body
    recipients := String.mk (dumpsStrList n.recipients)
    status := n.status.value
    created_at := isoformat n.created_at
    sent_at := n.sent_at.map isoformat
    retry_count := n.retry_count
    max_retries := n.max_retries
    next_retry := n.next_retry.map isoformat
    error_message := n.error_message
    metadata := some (String.mk (dumpsStrMap n.metadata)) }

/-- `NotificationDatabase._row_to_notification`.  Each conversion that
can raise in Python (`json.loads`, enum constructors, `fromisoformat`)
is `Option`-valued; the surrounding `except` clause of
`get_notification` turns any failure into `None`, which the `Option`
bind reproduces.  The metadata branch mirrors
`json.loads(row[12]) if row[12] else \x7b\x7d` (NULL and the empty
string both give the empty dict). -/
def row_to_notification (r : DbRow) : Option (Notification DateTime) := do
  let level ← NotificationLevel.ofValue r.level
  let recipients ← loadsStrList r.recipients
  let status ← NotificationStatus.ofValue r.status
  let created_at ← fromisoformat r.created_at
  let sent_at ← match r.sent_at with
    | none => some none
    | some s => (fromisoformat s).map some
  let next_retry ← match r.next_retry with
    | none => some none
    | some s => (fromisoformat s).map some
  let metadata ← match r.metadata with
    | none => some []
    | some s => if s.isEmpty then some [] else loadsStrMap s
  some { id := r.id, level := level, subject := r.subject, body := r.body
         recipients := recipients, status := status, created_at := created_at
         sent_at := sent_at, retry_count := r.retry_count
         max_retries := r.max_retries, next_retry := next_retry
         error_message := r.error_message, metadata := metadata }

/-- `NotificationDatabase.save_notification`:
`INSERT OR REPLACE INTO notifications ... VALUES (...)` keyed by the
primary key `id`.  The table is modelled as an association list from id
to row; the `REPLACE` removes any previous row with the same id. -/
def save_notification (db : List (String × DbRow)) (n : Notification DateTime) :
    List (String × DbRow) :=
  (n.id, encodeRow n) :: db.filter (fun p => p.1 ≠ n.id)

/-- `NotificationDatabase.get_notification`:
`SELECT * FROM notifications WHERE id = ?` followed by
`_row_to_notification`; both "row absent" and "conversion raised" give
`None`. -/
def get_notification (db : List (String × DbRow)) (id : String) :
    Option (Notification DateTime) :=
  (db.find? (fun p => p.1 == id)).bind (fun p => row_to_notification p.2)

/-- The notification `handle_event` creates for a matched rule `r`
when `generate_notification_id` returned `id`: level and recipients
come from the rule, the subject is `"Alert: " + rule.name`, the body
embeds the dumped payload, the metadata records rule name and type. -/
def ruleNotification {π : Type} (r : AlertRule π) (id : String) (now : Int)
    (dump : π → String) (p : π) : Notification Int :=
  freshNotification id r.notification_level ("Alert: " ++ r.name)
    ("Alert rule '" ++ r.name ++ "' triggered:\n\n" ++ dump p)
    r.recipients [("rule_name", r.name), ("rule_type", r.rule_type.value)] now

/-- Printable-ASCII string: the character range on which `escChars`
and `readJStringAux` model `json.dumps`/`json.loads` exactly (outside
it Python would emit `\\uXXXX` escapes this model does not). -/
def wfString (s : String) : Prop :=
  ∀ c ∈ s.data, 31 < c.toNat ∧ c.toNat < 127

instance (s : String) : Decidable (wfString s) :=
  decidable_of_iff (∀ c ∈ s.data, 31 < c.toNat ∧ c.toNat < 127) Iff.rfl

/-- Field bounds under which the fixed-width ISO-8601 printing is
faithful (`datetime` guarantees far tighter bounds). -/
def wfDateTime (d : DateTime) : Prop :=
  d.year < 10000 ∧ d.month < 100 ∧ d.day < 100 ∧ d.hour < 100 ∧
    d.minute < 100 ∧ d.second < 100 ∧ d.microsecond < 1000000

instance (d : DateTime) : Decidable (wfDateTime d) :=
  decidable_of_iff (d.year < 10000 ∧ d.month < 100 ∧ d.day < 100 ∧ d.hour < 100 ∧
    d.minute < 100 ∧ d.second < 100 ∧ d.microsecond < 1000000) Iff.rfl

/-- The domain on which the serialization model is exact: datetime
fields in range, strings printable ASCII, metadata a genuine dict
(no duplicate keys). -/
def wfNotificationRecord (n : Notification DateTime) : Prop :=
  wfDateTime n.created_at ∧
  (∀ d, n.sent_at = some d → wfDateTime d) ∧
  (∀ d, n.next_retry = some d → wfDateTime d) ∧
  (∀ r ∈ n.recipients, wfString r) ∧
  (∀ kv ∈ n.metadata, wfString kv.1 ∧ wfString kv.2) ∧
  (n.metadata.map Prod.fst).Nodup

instance (n : Notification DateTime) : Decidable (wfNotificationRecord n) :=
  decidable_of_iff (wfDateTime n.created_at ∧
    (∀ d ∈ n.sent_at, wfDateTime d) ∧
    (∀ d ∈ n.next_retry, wfDateTime d) ∧
    (∀ r ∈ n.recipients, wfString r) ∧
    (∀ kv ∈ n.metadata, wfString kv.1 ∧ wfString kv.2) ∧
    (n.metadata.map Prod.fst).Nodup)
    (by
      unfold wfNotificationRecord
      constructor
      · rintro ⟨h1, h2, h3, h4, h5, h6⟩
        exact ⟨h1, fun d hd => h2 d hd, fun d hd => h3 d hd, h4, h5, h6⟩
      · rintro ⟨h1, h2, h3, h4, h5, h6⟩
        exact ⟨h1, fun d hd => h2 d hd, fun d hd => h3 d hd, h4, h5, h6⟩)

/-! Concrete fixtures used by witnesses and counterexamples. -/

/-- A rule (over `Nat` payloads) that matches payloads greater than 3. -/
def cx_rule_match : AlertRule Nat :=
  { name := "migration_failure", rule_type := .event
    condition := fun n => .ok (decide (n > 3))
    notification_level := .critical, recipients := ["admin@example.com"] }

/-- A rule whose condition always raises. -/
def cx_rule_bad : AlertRule Nat :=
  { name := "bad_rule", rule_type := .threshold
    condition := fun _ => .error "boom"
    notification_level := .warning, recipients := ["devops@example.com"] }

/-- A disabled rule whose condition would match everything. -/
def cx_rule_disabled : AlertRule Nat :=
  { name := "disabled_rule", rule_type := .event
    condition := fun _ => .ok true
    notification_level := .info, recipients := ["x@example.com"], enabled := false }

/-- A second enabled matching rule. -/
def cx_rule_match2 : AlertRule Nat :=
  { name := "high_memory_usage", rule_type := .threshold
    condition := fun n => .ok (decide (n > 0))
    notification_level := .warning, recipients := ["devops@example.com"] }


/-- A freshly created notification, as `send_notification` makes it. -/
def cx_n0 : Notification Int :=
  freshNotification "n-cx" .error "backup failed" "details" ["ops@example.com"] [] 0

/-- A transport outcome for a failing adapter. -/
def cx_fail : DeliverResult := ⟨false, some "SMTP error: connection refused"⟩

/-- `cx_n0` after one failed worker pass. -/
def cx_n1 : Notification Int := (process_notification cx_n0 cx_fail 10).1

/-- `cx_n0` after two failed worker passes. -/
def cx_n2 : Notification Int := (process_notification cx_n1 cx_fail 12).1

/-- `cx_n0` after three failed worker passes: `retry_count` has reached
`max_retries` while the status is still RETRYING. -/
def cx_n3 : Notification Int := (process_notification cx_n2 cx_fail 16).1

/-- `cx_n1` after a subsequent successful pass: SENT, with the stale
`next_retry` still set. -/
def cx_n1s : Notification Int := (process_notification cx_n1 ⟨true, none⟩ 12).1

/-- An already-sent notification, for the idempotency claim. -/
def cx_sent : Notification Int := { cx_n0 with status := .sent }

/-- An old SENT notification (cleanup fixture). -/
def cx_old_sent : Notification Int :=
  { cx_n0 with id := "old-sent", status := .sent, created_at := -100000 }

/-- An equally old FAILED notification (cleanup fixture). -/
def cx_old_failed : Notification Int :=
  { cx_n0 with id := "old-failed", status := .failed, created_at := -100000 }

/-- A recent SENT notification (cleanup fixture). -/
def cx_new_sent : Notification Int :=
  { cx_n0 with id := "new-sent", status := .sent, created_at := 0 }

/-- The spec's example template: body `"Hi \x7b\x7bname\x7d\x7d, status \x7b\x7bstatus\x7d\x7d"`. -/
def cx_template : NotificationTemplate :=
  { name := "greeting", subject := "s",
    body := String.mk ("Hi ".data ++ placeholder "name" ++ ", status ".data ++
      placeholder "status") }

/-- A notification as it sits in the store, for the round-trip
witness. -/
def cx_dbn : Notification DateTime :=
  { id := "notif_1700000000_abcd1234", level := .critical
    subject := "Migration Operation Failed - M1"
    body := "Please review the error details and take appropriate action."
    recipients := ["admin@example.com", "ops@example.com"]
    status := .retrying
    created_at := ⟨2026, 10, 12, 5, 3, 21, 123456⟩
    sent_at := none, retry_count := 1, max_retries := 3
    next_retry := some ⟨2026, 10, 12, 5, 5, 21, 0⟩
    error_message := some "SMTP error: connection refused"
    metadata := [("rule_name", "migration_failure"), ("rule_type", "EVENT")] }

/-! # Theorems -/

/-- The chain `cx_n0 → cx_n1 → cx_n2 → cx_n3` consists of states the
system actually reaches. -/
theorem reach_cx_n0 : Reach cx_n0 none :=
  Reach.create "n-cx" .error "backup failed" "details" ["ops@example.com"] [] 0

theorem reach_cx_n1 : Reach cx_n1 (some false) := by
  have h := Reach.step cx_fail 10 reach_cx_n0
  simpa [cx_n1, cx_n0, freshNotification, cx_fail] using h

theorem reach_cx_n2 : Reach cx_n2 (some false) := by
  have h := Reach.step cx_fail 12 reach_cx_n1
  have hs : cx_n1.status = .retrying := by decide
  simpa [cx_n2, hs, cx_fail] using h

theorem reach_cx_n3 : Reach cx_n3 (some false) := by
  have h := Reach.step cx_fail 16 reach_cx_n2
  have hs : cx_n2.status = .retrying := by decide
  simpa [cx_n3, hs, cx_fail] using h

theorem reach_cx_n1s : Reach cx_n1s (some true) := by
  have h := Reach.step ⟨true, none⟩ 12 reach_cx_n1
  have hs : cx_n1.status = .retrying := by decide
  simpa [cx_n1s, hs] using h

/-- C1: a notification whose adapter always fails, created with the
default `maxRetries = 3`, passes through exactly three RETRYING states
(`retry_count` 1, 2, 3) before the fourth pass makes it FAILED; the
scheduled backoff after each failed attempt is 2, 4 and 8 minutes,
each equal to `min(2 ** retry_count, 60)` minutes computed after the
increment of `retry_count`; and each pass happens only once the
previous backoff has elapsed (`retryDue`). -/
theorem c1_retry_backoff_trace (id : String) (level : NotificationLevel)
    (subject body : String) (recipients : List String)
    (metadata : List (String × String)) (t₀ t₁ t₂ t₃ t₄ : Int)
    (e₁ e₂ e₃ e₄ : Option String) (n₀ n₁ n₂ n₃ n₄ : Notification Int)
    (hdue₂ : t₁ + 2 ≤ t₂) (hdue₃ : t₂ + 4 ≤ t₃) (hdue₄ : t₃ + 8 ≤ t₄)
    (h₀ : n₀ = freshNotification id level subject body recipients metadata t₀)
    (h₁ : n₁ = (process_notification n₀ ⟨false, e₁⟩ t₁).1)
    (h₂ : n₂ = (process_notification n₁ ⟨false, e₂⟩ t₂).1)
    (h₃ : n₃ = (process_notification n₂ ⟨false, e₃⟩ t₃).1)
    (h₄ : n₄ = (process_notification n₃ ⟨false, e₄⟩ t₄).1) :
    n₁.status = .retrying ∧ n₂.status = .retrying ∧ n₃.status = .retrying ∧
    n₄.status = .failed ∧
    n₁.retry_count = 1 ∧ n₂.retry_count = 2 ∧ n₃.retry_count = 3 ∧
    n₁.next_retry = some (t₁ + 2) ∧ n₂.next_retry = some (t₂ + 4) ∧
    n₃.next_retry = some (t₃ + 8) ∧
    (2 : Nat) = min (2 ^ n₁.retry_count) 60 ∧
    (4 : Nat) = min (2 ^ n₂.retry_count) 60 ∧
    (8 : Nat) = min (2 ^ n₃.retry_count) 60 ∧
    retryDue n₁ t₂ = true ∧ retryDue n₂ t₃ = true ∧ retryDue n₃ t₄ = true := by
  subst h₀ h₁ h₂ h₃ h₄
  simp [freshNotification, process_notification, retryDue]
  omega

/-- Witness for C1 at a concrete run. -/
theorem c1_retry_backoff_trace_witness :
    ((10 : Int) + 2 ≤ 12 ∧ (12 : Int) + 4 ≤ 16 ∧ (16 : Int) + 8 ≤ 24) ∧
    (cx_n1.status = .retrying ∧ cx_n2.status = .retrying ∧ cx_n3.status = .retrying ∧
      ((process_notification cx_n3 cx_fail 24).1).status = .failed ∧
      cx_n1.retry_count = 1 ∧ cx_n2.retry_count = 2 ∧ cx_n3.retry_count = 3 ∧
      cx_n1.next_retry = some (10 + 2) ∧ cx_n2.next_retry = some (12 + 4) ∧
      cx_n3.next_retry = some (16 + 8) ∧
      (2 : Nat) = min (2 ^ cx_n1.retry_count) 60 ∧
      (4 : Nat) = min (2 ^ cx_n2.retry_count) 60 ∧
      (8 : Nat) = min (2 ^ cx_n3.retry_count) 60 ∧
      retryDue cx_n1 12 = true ∧ retryDue cx_n2 16 = true ∧ retryDue cx_n3 24 = true) :=
  ⟨by norm_num,
    c1_retry_backoff_trace "n-cx" .error "backup failed" "details" ["ops@example.com"] []
      0 10 12 16 24 cx_fail.error cx_fail.error cx_fail.error cx_fail.error
      cx_n0 cx_n1 cx_n2 cx_n3 ((process_notification cx_n3 cx_fail 24).1)
      (by norm_num) (by norm_num) (by norm_num) rfl rfl rfl rfl rfl⟩

/-- C9: a worker pass on a notification whose status is already SENT is
a no-op: the notification is returned unchanged and no effect at all
(no adapter call, no audit append, no store write) is produced. -/
theorem c9_sent_noop (n : Notification Int) (res : DeliverResult) (now : Int)
    (h : n.status = .sent) : process_notification n res now = (n, []) := by
  simp [process_notification, h]

/-- Witness for C9 at a concrete already-sent notification. -/
theorem c9_sent_noop_witness :
    cx_sent.status = .sent ∧ process_notification cx_sent cx_fail 99 = (cx_sent, []) :=
  ⟨by decide, c9_sent_noop cx_sent cx_fail 99 (by decide)⟩

/-- C2 as stated is false on the code: after the third failed attempt
the chain `cx_n0 → cx_n1 → cx_n2 → cx_n3` reaches a state whose
`retry_count` equals `max_retries` and whose most recent delivery
attempt failed, yet whose status is RETRYING, not FAILED — the
right-to-left direction of the claimed "if and only if" fails. -/
theorem c2_failed_iff_counterexample :
    Reach cx_n3 (some false) ∧
    cx_n3.retry_count = cx_n3.max_retries ∧
    cx_n3.status ≠ .failed :=
  ⟨reach_cx_n3, by decide, by decide⟩

/-- C2 (amended): for every reachable notification, `retry_count`
never exceeds `max_retries`, and status FAILED implies that
`retry_count == max_retries` and the most recent delivery attempt
failed (the converse does not hold, see the counterexample). -/
theorem c2_retry_invariant (n : Notification Int) (last : Option Bool)
    (h : Reach n last) :
    n.retry_count ≤ n.max_retries ∧
    (n.status = .failed → n.retry_count = n.max_retries ∧ last = some false) := by
  induction h with
  | create id level subject body recipients metadata now =>
    simp [freshNotification]
  | step res now h ih =>
    rename_i n last
    by_cases hs : n.status = .sent
    · simpa [process_notification, hs] using ih
    · cases hsucc : res.success
      · by_cases hrc : n.retry_count < n.max_retries
        · simp [process_notification, hs, hsucc, hrc]
          omega
        · simp [process_notification, hs, hsucc, hrc]
          omega
      · simp [process_notification, hs, hsucc]
        exact ih.1

/-- Witness for the amended C2 at the reachable state `cx_n3`. -/
theorem c2_retry_invariant_witness :
    cx_n3.retry_count ≤ cx_n3.max_retries ∧
    (cx_n3.status = .failed →
      cx_n3.retry_count = cx_n3.max_retries ∧ (some false : Option Bool) = some false) :=
  c2_retry_invariant cx_n3 (some false) reach_cx_n3

/-- C3 as stated is false on the code: processing the reachable
exhausted notification `cx_n3` with a failing adapter does set status
FAILED, but `_process_notification` appends no audit entry on that
path (its only `log_audit_event` call is in the success branch), so no
"FAILED_PERMANENT" audit event is written. -/
theorem c3_failed_permanent_counterexample :
    Reach cx_n3 (some false) ∧
    ((process_notification cx_n3 cx_fail 24).1).status = .failed ∧
    Effect.audit cx_n3.id "FAILED_PERMANENT" ∉ (process_notification cx_n3 cx_fail 24).2 :=
  ⟨reach_cx_n3, by decide, by decide⟩

/-- C3 (amended): when a delivery attempt fails with retries exhausted
(`retry_count` not less than `max_retries`), the worker sets status
FAILED and saves, but appends no audit entry at all: the effects of
the pass are exactly the adapter call and the save. -/
theorem c3_failed_no_audit (n : Notification Int) (res : DeliverResult) (now : Int)
    (hs : n.status ≠ .sent) (hf : res.success = false)
    (hrc : ¬ n.retry_count < n.max_retries) :
    ((process_notification n res now).1).status = .failed ∧
    (process_notification n res now).2 =
      [Effect.adapterCall n.recipients n.subject n.body,
       Effect.save (process_notification n res now).1] := by
  simp [process_notification, hs, hf, hrc]

/-- Witness for the amended C3 at `cx_n3` with the failing adapter. -/
theorem c3_failed_no_audit_witness :
    (cx_n3.status ≠ .sent ∧ cx_fail.success = false ∧
      ¬ cx_n3.retry_count < cx_n3.max_retries) ∧
    (((process_notification cx_n3 cx_fail 24).1).status = .failed ∧
      (process_notification cx_n3 cx_fail 24).2 =
        [Effect.adapterCall cx_n3.recipients cx_n3.subject cx_n3.body,
         Effect.save (process_notification cx_n3 cx_fail 24).1]) :=
  ⟨by decide, c3_failed_no_audit cx_n3 cx_fail 24 (by decide) (by decide) (by decide)⟩

/-- C4 as stated is false on the code: `cx_n1s` is reachable (one
failed pass, then one successful pass), has status SENT, and still
carries the stale `next_retry` scheduled by the failed pass —
`_process_notification` never clears `next_retry` when it moves a
notification to SENT or FAILED. -/
theorem c4_nextretry_counterexample :
    Reach cx_n1s (some true) ∧ cx_n1s.status = .sent ∧ cx_n1s.next_retry = some 12 :=
  ⟨reach_cx_n1s, by decide, by decide⟩

/-- C4 (amended): for every reachable notification, `next_retry` is
set whenever the status is RETRYING; but the converse fails, because a
worker pass that moves a notification to SENT or FAILED leaves
`next_retry` exactly as it was (it is never cleared). -/
theorem c4_nextretry_invariant :
    (∀ (n : Notification Int) (last : Option Bool), Reach n last →
        n.status = .retrying → n.next_retry.isSome = true) ∧
    (∀ (n : Notification Int) (res : DeliverResult) (now : Int),
        ((process_notification n res now).1).status = .sent ∨
          ((process_notification n res now).1).status = .failed →
        ((process_notification n res now).1).next_retry = n.next_retry) := by
  constructor
  · intro n last h
    induction h with
    | create id level subject body recipients metadata now =>
      simp [freshNotification]
    | step res now h ih =>
      rename_i n last
      by_cases hs : n.status = .sent
      · simp [process_notification, hs]
      · cases hsucc : res.success
        · by_cases hrc : n.retry_count < n.max_retries
          · simp [process_notification, hs, hsucc, hrc]
          · simp [process_notification, hs, hsucc, hrc]
        · simp [process_notification, hs, hsucc]
  · intro n res now hor
    by_cases hs : n.status = .sent
    · simp [process_notification, hs]
    · cases hsucc : res.success
      · by_cases hrc : n.retry_count < n.max_retries
        · exfalso
          rcases hor with h | h <;> simp [process_notification, hs, hsucc, hrc] at h
        · simp [process_notification, hs, hsucc, hrc]
      · simp [process_notification, hs, hsucc]

/-- Witness for the amended C4: the RETRYING state `cx_n1` has its
`next_retry` set, and the successful pass that moves it to SENT keeps
`next_retry` unchanged. -/
theorem c4_nextretry_invariant_witness :
    cx_n1.next_retry.isSome = true ∧
    ((process_notification cx_n1 ⟨true, none⟩ 12).1).next_retry = cx_n1.next_retry :=
  ⟨c4_nextretry_invariant.1 cx_n1 (some false) reach_cx_n1 (by decide),
   c4_nextretry_invariant.2 cx_n1 ⟨true, none⟩ 12 (Or.inl (by decide))⟩

/-- Closed form of `handle_event`'s loop: one id from the supply and
one save-and-enqueue pair per matched rule, in order. -/
theorem handle_event_go_closed {π : Type} (gen : Nat → String) (now : Int)
    (dump : π → String) (p : π) (rs : List (AlertRule π)) :
    ∀ i : Nat, handle_event_go gen now dump p i rs =
      ((rs.enumFrom i).map (fun x => gen x.1),
       (rs.enumFrom i).flatMap
         (fun x => [FacadeEffect.save (ruleNotification x.2 (gen x.1) now dump p),
                    FacadeEffect.enqueue (ruleNotification x.2 (gen x.1) now dump p)])) := by
  induction rs with
  | nil => intro i; rfl
  | cons r rs ih =>
    intro i
    simp [handle_event_go, send_notification, ruleNotification, freshNotification,
      List.enumFrom_cons, List.flatMap_cons, ih (i + 1)]

/-- `evaluate_event` is the ordered filter of the registered rules by
"enabled and matching". -/
theorem evaluate_event_eq_filter {π : Type} (rules : List (AlertRule π)) (p : π) :
    evaluate_event rules p = rules.filter (fun r => r.enabled && r.matches p) := by
  rw [evaluate_event, get_enabled_rules, List.filter_filter]
  exact List.filter_congr (fun a _ => by rw [Bool.and_comm])

/-- C5: `handle_event` sends exactly one notification per matched
enabled rule: the returned ids are the id supply's first `k` outputs in
match order (`k` = number of matches), the store writes are exactly one
save (and one enqueue) per matched rule in order, each created
notification carries the matching rule's configured level and
recipients (and status PENDING), and a payload matching zero rules
produces zero notifications and no store writes. -/
theorem c5_handle_event_per_rule {π : Type} (rules : List (AlertRule π)) (p : π)
    (gen : Nat → String) (now : Int) (dump : π → String) :
    (handle_event rules p gen now dump).1 =
      (List.range (evaluate_event rules p).length).map gen ∧
    (handle_event rules p gen now dump).2 =
      (evaluate_event rules p).enum.flatMap
        (fun x => [FacadeEffect.save (ruleNotification x.2 (gen x.1) now dump p),
                   FacadeEffect.enqueue (ruleNotification x.2 (gen x.1) now dump p)]) ∧
    (∀ (r : AlertRule π) (id : String),
        (ruleNotification r id now dump p).level = r.notification_level ∧
        (ruleNotification r id now dump p).recipients = r.recipients ∧
        (ruleNotification r id now dump p).id = id ∧
        (ruleNotification r id now dump p).status = .pending) ∧
    (evaluate_event rules p = [] → handle_event rules p gen now dump = ([], [])) := by
  have hc := handle_event_go_closed gen now dump p (evaluate_event rules p) 0
  refine ⟨?_, ?_, fun r id => ⟨rfl, rfl, rfl, rfl⟩, ?_⟩
  · show (handle_event_go gen now dump p 0 (evaluate_event rules p)).1 = _
    rw [hc]
    show ((evaluate_event rules p).enum.map (fun x => gen x.1)) = _
    rw [show (fun x : Nat × AlertRule π => gen x.1) = gen ∘ Prod.fst from rfl,
      ← List.map_map, List.enum_map_fst]
  · show (handle_event_go gen now dump p 0 (evaluate_event rules p)).2 = _
    rw [hc]
    rfl
  · intro h
    show handle_event_go gen now dump p 0 (evaluate_event rules p) = ([], [])
    rw [h]
    rfl

/-- Witness for C5: with four registered rules of which two enabled
ones match the payload `5`, two notifications are produced with the
supply's ids; with the non-matching payload `0`, nothing is produced
and nothing is written. -/
theorem c5_handle_event_per_rule_witness :
    (handle_event [cx_rule_match, cx_rule_bad, cx_rule_disabled, cx_rule_match2]
        (5 : Nat) (fun i => toString i) 7 (fun _ => "payload")).1 =
      (List.range (evaluate_event [cx_rule_match, cx_rule_bad, cx_rule_disabled,
        cx_rule_match2] (5 : Nat)).length).map (fun i => toString i) ∧
    (evaluate_event [cx_rule_match] (0 : Nat) = [] ∧
      handle_event [cx_rule_match] (0 : Nat) (fun i => toString i) 7
        (fun _ => "payload") = ([], [])) :=
  ⟨(c5_handle_event_per_rule [cx_rule_match, cx_rule_bad, cx_rule_disabled, cx_rule_match2]
      (5 : Nat) (fun i => toString i) 7 (fun _ => "payload")).1,
   ⟨rfl, (c5_handle_event_per_rule [cx_rule_match] (0 : Nat) (fun i => toString i) 7
      (fun _ => "payload")).2.2.2 rfl⟩⟩

/-- C8: `evaluate_event` returns, in registration order, exactly the
enabled rules whose condition evaluates to true; a condition that
raises is a non-match (`matches` is false rather than propagating the
exception), and a raising rule anywhere in the registry leaves the
evaluation of the rules before and after it untouched. -/
theorem c8_evaluate_event_isolation (π : Type) :
    (∀ (rules : List (AlertRule π)) (p : π),
        evaluate_event rules p = rules.filter (fun r => r.enabled && r.matches p)) ∧
    (∀ (r : AlertRule π) (p : π) (e : String),
        r.condition p = .error e → r.matches p = false) ∧
    (∀ (pre : List (AlertRule π)) (bad : AlertRule π) (post : List (AlertRule π))
        (p : π) (e : String), bad.condition p = .error e →
        evaluate_event (pre ++ bad :: post) p =
          evaluate_event pre p ++ evaluate_event post p) := by
  refine ⟨fun rules p => evaluate_event_eq_filter rules p, ?_, ?_⟩
  · intro r p e h
    simp [AlertRule.matches, h]
  · intro pre bad post p e h
    have hm : bad.matches p = false := by simp [AlertRule.matches, h]
    simp [evaluate_event_eq_filter, List.filter_append, List.filter_cons, hm]

/-- Witness for C8: the always-raising rule `cx_rule_bad` is a
non-match and does not block the rules registered around it. -/
theorem c8_evaluate_event_isolation_witness :
    (cx_rule_bad.condition 5 = .error "boom") ∧
    cx_rule_bad.matches 5 = false ∧
    evaluate_event ([cx_rule_match] ++ cx_rule_bad :: [cx_rule_disabled, cx_rule_match2])
        (5 : Nat) =
      evaluate_event [cx_rule_match] 5 ++ evaluate_event [cx_rule_disabled, cx_rule_match2] 5 :=
  ⟨rfl,
   (c8_evaluate_event_isolation Nat).2.1 cx_rule_bad 5 "boom" rfl,
   (c8_evaluate_event_isolation Nat).2.2 [cx_rule_match] cx_rule_bad
     [cx_rule_disabled, cx_rule_match2] 5 "boom" rfl⟩

/-- C6: `cleanup_old_notifications` leaves the table the same length,
archives exactly the SENT rows older than the cutoff (only their
status changes), leaves every other row — in particular every FAILED
row, regardless of age — completely unchanged, and returns the number
of rows the `WHERE` clause matched. -/
theorem c6_cleanup_archives_sent_only (rows : List (Notification Int)) (days : Nat)
    (now : Int) (cutoff : Int) (hcut : cutoff = now - (days * 1440 : Nat)) :
    ((cleanup_old_notifications rows days now).1.length = rows.length) ∧
    (∀ (i : Nat) (n : Notification Int), rows[i]? = some n →
        ((n.created_at < cutoff ∧ n.status = .sent) →
            (cleanup_old_notifications rows days now).1[i]? =
              some { n with status := .archived }) ∧
        (¬ (n.created_at < cutoff ∧ n.status = .sent) →
            (cleanup_old_notifications rows days now).1[i]? = some n)) ∧
    (∀ n ∈ rows, n.status = .failed → n ∈ (cleanup_old_notifications rows days now).1) ∧
    ((cleanup_old_notifications rows days now).2 =
        (rows.filter (fun n => decide (n.created_at < cutoff ∧ n.status = .sent))).length) := by
  subst hcut
  refine ⟨by simp [cleanup_old_notifications], ?_, ?_, rfl⟩
  · intro i n hn
    have hmap : (cleanup_old_notifications rows days now).1[i]? =
        some (if n.created_at < now - ((days * 1440 : Nat) : Int) ∧ n.status = .sent
          then { n with status := NotificationStatus.archived } else n) := by
      simp only [cleanup_old_notifications, List.getElem?_map, hn, Option.map_some']
    constructor
    · intro hcond
      rw [hmap, if_pos hcond]
    · intro hcond
      rw [hmap, if_neg hcond]
  · intro n hn hf
    refine List.mem_map.mpr ⟨n, hn, ?_⟩
    rw [if_neg]
    rintro ⟨-, h2⟩
    rw [hf] at h2
    cases h2

/-- Witness for C6: among an old SENT row, an equally old FAILED row
and a fresh SENT row, `cleanup(days=30)` archives exactly the old SENT
row; the FAILED row survives unchanged. -/
theorem c6_cleanup_archives_sent_only_witness :
    ((cx_old_sent.created_at < (0 : Int) - ((30 : Nat) * 1440 : Nat) ∧ cx_old_sent.status = .sent) ∧
      (cleanup_old_notifications [cx_old_sent, cx_old_failed, cx_new_sent] 30 0).1[0]? =
        some { cx_old_sent with status := .archived }) ∧
    (cleanup_old_notifications [cx_old_sent, cx_old_failed, cx_new_sent] 30 0).1[1]? =
      some cx_old_failed ∧
    cx_old_failed ∈ (cleanup_old_notifications [cx_old_sent, cx_old_failed, cx_new_sent] 30 0).1 :=
  ⟨⟨by decide,
    ((c6_cleanup_archives_sent_only [cx_old_sent, cx_old_failed, cx_new_sent] 30 0 _ rfl).2.1
        0 cx_old_sent rfl).1 (by decide)⟩,
   ((c6_cleanup_archives_sent_only [cx_old_sent, cx_old_failed, cx_new_sent] 30 0 _ rfl).2.1
        1 cx_old_failed rfl).2 (by decide),
   (c6_cleanup_archives_sent_only [cx_old_sent, cx_old_failed, cx_new_sent] 30 0 _ rfl).2.2.1
        cx_old_failed (by decide) (by decide)⟩

/-! Template-engine lemmas and claim C7. -/

theorem strReplaceAux_fuel (needle repl : List Char) :
    ∀ (f₁ f₂ : Nat) (l : List Char), l.length ≤ f₁ → l.length ≤ f₂ →
      strReplaceAux needle repl f₁ l = strReplaceAux needle repl f₂ l := by
  intro f₁
  induction f₁ with
  | zero =>
    intro f₂ l h₁ _
    have : l = [] := List.length_eq_zero.mp (Nat.le_zero.mp h₁)
    subst this
    cases f₂ <;> rfl
  | succ f₁ ih =>
    intro f₂ l h₁ h₂
    match f₂, l with
    | 0, l =>
      have : l = [] := List.length_eq_zero.mp (Nat.le_zero.mp h₂)
      subst this
      rfl
    | f₂ + 1, [] => rfl
    | f₂ + 1, c :: rest =>
      simp only [strReplaceAux]
      by_cases hg : needle ≠ [] ∧ needle.isPrefixOf (c :: rest)
      · rw [if_pos hg, if_pos hg]
        have hpos : 0 < needle.length := List.length_pos.mpr hg.1
        have hdl : ((c :: rest).drop needle.length).length ≤ f₁ := by
          simp only [List.length_drop, List.length_cons]
          simp only [List.length_cons] at h₁
          omega
        have hdl₂ : ((c :: rest).drop needle.length).length ≤ f₂ := by
          simp only [List.length_drop, List.length_cons]
          simp only [List.length_cons] at h₂
          omega
        rw [ih f₂ _ hdl hdl₂]
      · rw [if_neg hg, if_neg hg]
        have hl : rest.length ≤ f₁ := by
          simp only [List.length_cons] at h₁
          omega
        have hl₂ : rest.length ≤ f₂ := by
          simp only [List.length_cons] at h₂
          omega
        rw [ih f₂ _ hl hl₂]

theorem strReplace_nil (needle repl : List Char) : strReplace needle repl [] = [] :=
  rfl

theorem strReplace_cons_pos (needle repl : List Char) (c : Char) (rest : List Char)
    (h1 : needle ≠ []) (h2 : needle.isPrefixOf (c :: rest)) :
    strReplace needle repl (c :: rest) =
      repl ++ strReplace needle repl ((c :: rest).drop needle.length) := by
  show strReplaceAux needle repl (rest.length + 1) (c :: rest) = _
  rw [strReplaceAux, if_pos ⟨h1, h2⟩]
  congr 1
  apply strReplaceAux_fuel
  · have hpos : 0 < needle.length := List.length_pos.mpr h1
    simp only [List.length_drop, List.length_cons]
    omega
  · exact le_rfl

theorem strReplace_cons_neg (needle repl : List Char) (c : Char) (rest : List Char)
    (h : ¬ (needle ≠ [] ∧ needle.isPrefixOf (c :: rest))) :
    strReplace needle repl (c :: rest) = c :: strReplace needle repl rest := by
  show strReplaceAux needle repl (rest.length + 1) (c :: rest) = _
  rw [strReplaceAux, if_neg h]
  rfl

theorem strReplace_eat (needle v rest : List Char) (hne : needle ≠ []) :
    strReplace needle v (needle ++ rest) = v ++ strReplace needle v rest := by
  match needle with
  | c :: nrest =>
    rw [List.cons_append,
      strReplace_cons_pos _ _ _ _ hne
        (List.isPrefixOf_iff_prefix.mpr (by rw [← List.cons_append]; exact List.prefix_append _ _))]
    congr 1
    rw [← List.cons_append, List.drop_left]

theorem key_eq_of_prefix (k k' rest : List Char) (hk : braceFree k) (hk' : braceFree k')
    (h : (k' ++ ['}', '}']) <+: (k ++ ['}', '}'] ++ rest)) : k = k' := by
  induction k' generalizing k with
  | nil =>
    cases k with
    | nil => rfl
    | cons c k₁ =>
      exfalso
      rw [List.nil_append] at h
      rcases h with ⟨t, ht⟩
      have : '}' = c := by
        have := congrArg (fun l => l.head?) ht
        simpa using this
      exact (hk c (by simp)).2 this.symm
  | cons c' k₁' ih =>
    cases k with
    | nil =>
      exfalso
      rcases h with ⟨t, ht⟩
      have : c' = '}' := by
        have := congrArg (fun l => l.head?) ht
        simpa using this
      exact (hk' c' (by simp)).2 this
    | cons c k₁ =>
      rcases h with ⟨t, ht⟩
      simp only [List.cons_append, List.cons.injEq] at ht
      obtain ⟨hc, ht⟩ := ht
      have hrec : k₁ = k₁' := by
        apply ih k₁ (fun x hx => hk x (by simp [hx])) (fun x hx => hk' x (by simp [hx]))
        exact ⟨t, ht⟩
      rw [hc, hrec]

theorem phData_length (k : List Char) : (phData k).length = k.length + 4 := by
  simp [phData]

theorem phData_not_prefix_drop (k k' : List Char) (hk : wfKeyData k) (hk' : wfKeyData k')
    (hne : k ≠ k') :
    ∀ i, i < (phData k).length → ∀ rest, ¬ phData k' <+: ((phData k).drop i ++ rest) := by
  intro i hi rest hpre
  match i with
  | 0 =>
    apply hne
    simp only [List.drop_zero] at hpre
    rcases hpre with ⟨t, ht⟩
    simp only [phData, List.cons_append, List.cons.injEq, List.append_assoc, true_and] at ht
    exact key_eq_of_prefix k k' rest hk.2 hk'.2 ⟨t, by simpa using ht⟩
  | 1 =>
    have hd : (phData k).drop 1 ++ rest = '{' :: ((k ++ ['}', '}']) ++ rest) := by
      simp [phData]
    rw [hd] at hpre
    rcases hpre with ⟨t, ht⟩
    have ht2 : '{' :: ((k' ++ ['}', '}']) ++ t) = (k ++ ['}', '}']) ++ rest := by
      have := ht
      simp only [phData, List.cons_append, List.cons.injEq, List.append_assoc] at this ⊢
      simpa using this.2
    cases hk0 : k with
    | nil =>
      rw [hk0] at ht2
      have h3 := congrArg (fun l => l.head?) ht2
      simp at h3
    | cons c k₁ =>
      rw [hk0] at ht2
      have hhd : '{' = c := by
        have h3 := congrArg (fun l => l.head?) ht2
        simpa using h3
      exact (hk.2 c (by rw [hk0]; simp)).1 hhd.symm
  | j + 2 =>
    have hd : (phData k).drop (j + 2) = (k ++ ['}', '}']).drop j := by simp [phData]
    rw [hd] at hpre
    have hj : j < (k ++ ['}', '}']).length := by
      rw [phData_length] at hi
      simp only [List.length_append, List.length_cons, List.length_nil]
      omega
    rw [List.drop_eq_getElem_cons hj] at hpre
    rcases hpre with ⟨t, ht⟩
    have hchar : (k ++ ['}', '}'])[j] = '{' := by
      simp only [phData, List.cons_append] at ht
      injection ht with h1 _
      exact h1.symm
    have hmem := List.getElem_mem hj
    rw [hchar] at hmem
    rcases List.mem_append.mp hmem with hm | hm
    · exact (hk.2 '{' hm).1 rfl
    · simp at hm

theorem infix_right_of_length_le (s mid t l₁ l₂ : List Char)
    (h : s ++ mid ++ t = l₁ ++ l₂) (hlen : l₁.length ≤ s.length) : mid <:+: l₂ := by
  have hd := congrArg (List.drop l₁.length) h
  rw [List.append_assoc, List.drop_append_of_le_length hlen, List.drop_left] at hd
  exact ⟨s.drop l₁.length, t, by rw [List.append_assoc]; exact hd⟩

theorem head_mem_left (s mid t l₁ l₂ : List Char) (d : Char)
    (h : s ++ (d :: mid) ++ t = l₁ ++ l₂) (hlen : s.length < l₁.length) : d ∈ l₁ := by
  have hd := congrArg (List.drop s.length) h
  rw [List.append_assoc, List.drop_left,
    List.drop_append_of_le_length (le_of_lt hlen),
    List.drop_eq_getElem_cons hlen] at hd
  have : d = l₁[s.length] := by
    injection hd with h1 _
  rw [this]
  exact List.getElem_mem hlen

theorem phData_infix_right (k l₁ l₂ : List Char) (hl : '{' ∉ l₁)
    (h : phData k <:+: l₁ ++ l₂) : phData k <:+: l₂ := by
  rcases h with ⟨s, t, hst⟩
  by_cases hlen : s.length < l₁.length
  · exact absurd (head_mem_left s ('{' :: k ++ ['}', '}']) t l₁ l₂ '{' hst hlen) hl
  · exact infix_right_of_length_le s (phData k) t l₁ l₂ hst (not_lt.mp hlen)

theorem phData_infix_extract (k k' l₂ : List Char) (hk : wfKeyData k) (hk' : wfKeyData k')
    (h : phData k' <:+: phData k ++ l₂) : k = k' ∨ phData k' <:+: l₂ := by
  rcases h with ⟨s, t, hst⟩
  by_cases hlen : s.length < (phData k).length
  · left
    by_contra hne
    have hd := congrArg (List.drop s.length) hst
    rw [List.append_assoc, List.drop_left,
      List.drop_append_of_le_length (le_of_lt hlen)] at hd
    exact phData_not_prefix_drop k k' hk hk' hne s.length hlen l₂ ⟨t, hd⟩
  · right
    exact infix_right_of_length_le s (phData k') t (phData k) l₂ hst (not_lt.mp hlen)

theorem strReplace_append_no_match (needle repl pre tail : List Char)
    (h : ∀ i < pre.length, ¬ needle <+: (pre.drop i ++ tail)) :
    strReplace needle repl (pre ++ tail) = pre ++ strReplace needle repl tail := by
  induction pre with
  | nil => simp
  | cons c pre' ih =>
    rw [List.cons_append, strReplace_cons_neg]
    · have ih' := ih (fun i hi => by
        have := h (i + 1) (by simp only [List.length_cons]; omega)
        simpa using this)
      rw [ih']
      rfl
    · rintro ⟨-, hpre⟩
      have h0 := h 0 (by simp)
      rw [List.drop_zero, List.cons_append] at h0
      exact h0 (List.isPrefixOf_iff_prefix.mp hpre)

theorem strReplace_phData_skip (k k' v : List Char) (hk : wfKeyData k) (hk' : wfKeyData k')
    (hne : k' ≠ k) (tail : List Char) :
    strReplace (phData k) v (phData k' ++ tail) =
      phData k' ++ strReplace (phData k) v tail :=
  strReplace_append_no_match _ _ _ _
    (fun i hi => phData_not_prefix_drop k' k hk' hk hne i hi tail)

theorem strReplace_phData_cons_plain (j v : List Char) (c : Char) (rest : List Char)
    (hc : c ≠ '{') :
    strReplace (phData j) v (c :: rest) = c :: strReplace (phData j) v rest := by
  apply strReplace_cons_neg
  rintro ⟨-, hpre⟩
  rcases List.isPrefixOf_iff_prefix.mp hpre with ⟨t, ht⟩
  apply hc
  have h3 := congrArg (fun l => l.head?) ht
  simpa [phData] using h3.symm

theorem strReplace_phData_self (j v rest : List Char) :
    strReplace (phData j) v (phData j ++ rest) = v ++ strReplace (phData j) v rest :=
  strReplace_eat (phData j) v rest (by simp [phData])

theorem phData_infix_strReplace (k k' v : List Char) (hk : wfKeyData k) (hk' : wfKeyData k')
    (hne : k ≠ k') :
    ∀ (N : Nat) (h : List Char), h.length ≤ N → phData k' <:+: h →
      phData k' <:+: strReplace (phData k) v h := by
  intro N
  induction N with
  | zero =>
    intro h hlen hinf
    have hnil : h = [] := List.length_eq_zero.mp (Nat.le_zero.mp hlen)
    subst hnil
    rcases hinf with ⟨s, t, hst⟩
    simp [phData] at hst
  | succ N ihN =>
    intro h hlen hinf
    match h with
    | [] =>
      rcases hinf with ⟨s, t, hst⟩
      simp [phData] at hst
    | c :: rest =>
      by_cases hguard : (phData k).isPrefixOf (c :: rest)
      · rcases List.isPrefixOf_iff_prefix.mp hguard with ⟨h₂, hh₂⟩
        rw [← hh₂] at hinf ⊢
        rcases phData_infix_extract k k' h₂ hk hk' hinf with heq | hinf₂
        · exact absurd heq hne
        · rw [strReplace_phData_self]
          have hlen₂ : h₂.length ≤ N := by
            have hl : (phData k ++ h₂).length = (c :: rest).length := by rw [hh₂]
            simp only [List.length_append, phData_length, List.length_cons] at hl
            simp only [List.length_cons] at hlen
            omega
          rcases ihN h₂ hlen₂ hinf₂ with ⟨s, t, hst⟩
          exact ⟨v ++ s, t, by rw [← hst]; simp⟩
      · by_cases hpre : phData k' <+: c :: rest
        · rcases hpre with ⟨tail, htail⟩
          rw [← htail]
          rw [strReplace_phData_skip k k' v hk hk' (fun e => hne e.symm)]
          exact ⟨[], strReplace (phData k) v tail, by simp⟩
        · have hinf' : phData k' <:+: rest := by
            rcases List.infix_cons_iff.mp hinf with hp | hi
            · exact absurd hp hpre
            · exact hi
          have hlen' : rest.length ≤ N := by
            simp only [List.length_cons] at hlen
            omega
          have hstep := ihN rest hlen' hinf'
          rw [strReplace_cons_neg _ _ _ _ (fun hc => hguard hc.2)]
          exact List.infix_cons hstep

theorem clean_append_braceFree (v x : List Char) (hv : braceFree v) (hx : Clean x) :
    Clean (v ++ x) := by
  induction v with
  | nil => simpa using hx
  | cons c v' ih =>
    exact .chr (hv c (by simp)) (ih (fun d hd => hv d (by simp [hd])))

theorem clean_strReplace (j v : List Char) (hj : wfKeyData j) (hv : braceFree v)
    (h : List Char) (hc : Clean h) : Clean (strReplace (phData j) v h) := by
  induction hc with
  | nil =>
    rw [strReplace_nil]
    exact .nil
  | @chr c hc' rest hrest ih =>
    rw [strReplace_phData_cons_plain _ _ _ _ hc'.1]
    exact .chr hc' ih
  | @seg k hk rest hrest ih =>
    by_cases hkj : k = j
    · subst hkj
      rw [strReplace_phData_self]
      exact clean_append_braceFree _ _ hv ih
    · rw [strReplace_phData_skip j k v hj hk hkj]
      exact .seg hk ih

theorem strReplace_no_self (kk v : List Char) (hk : wfKeyData kk) (hv : braceFree v)
    (h : List Char) (hc : Clean h) : ¬ phData kk <:+: strReplace (phData kk) v h := by
  induction hc with
  | nil =>
    rw [strReplace_nil]
    rintro ⟨s, t, hst⟩
    simp [phData] at hst
  | @chr c hc' rest hrest ih =>
    rw [strReplace_phData_cons_plain _ _ _ _ hc'.1]
    intro hinf
    rcases List.infix_cons_iff.mp hinf with hp | hi
    · rcases hp with ⟨t, ht⟩
      apply hc'.1
      have h3 := congrArg (fun l => l.head?) ht
      simpa [phData] using h3.symm
    · exact ih hi
  | @seg k hkseg rest hrest ih =>
    by_cases hkkk : k = kk
    · subst hkkk
      rw [strReplace_phData_self]
      intro hinf
      exact ih (phData_infix_right k v _ (fun hm => (hv '{' hm).1 rfl) hinf)
    · rw [strReplace_phData_skip kk k v hk hkseg hkkk]
      intro hinf
      rcases phData_infix_extract k kk _ hkseg hk hinf with heq | hi
      · exact hkkk heq
      · exact ih hi

theorem strReplace_no_other (kk j v : List Char) (hkk : wfKeyData kk) (hj : wfKeyData j)
    (hv : braceFree v) (h : List Char) (hc : Clean h) (hn : ¬ phData kk <:+: h) :
    ¬ phData kk <:+: strReplace (phData j) v h := by
  induction hc with
  | nil =>
    rw [strReplace_nil]
    exact hn
  | @chr c hc' rest hrest ih =>
    rw [strReplace_phData_cons_plain _ _ _ _ hc'.1]
    intro hinf
    rcases List.infix_cons_iff.mp hinf with hp | hi
    · rcases hp with ⟨t, ht⟩
      apply hc'.1
      have h3 := congrArg (fun l => l.head?) ht
      simpa [phData] using h3.symm
    · exact ih (fun hr' => hn (List.infix_cons hr')) hi
  | @seg k hkseg rest hrest ih =>
    have hkne : k ≠ kk := by
      intro he
      subst he
      exact hn ⟨[], rest, by simp⟩
    have hnrest : ¬ phData kk <:+: rest := by
      intro hr'
      rcases hr' with ⟨s, t, hst⟩
      exact hn ⟨phData k ++ s, t, by rw [← hst]; simp⟩
    by_cases hkj : k = j
    · subst hkj
      rw [strReplace_phData_self]
      intro hinf
      exact (ih hnrest) (phData_infix_right kk v _ (fun hm => (hv '{' hm).1 rfl) hinf)
    · rw [strReplace_phData_skip j k v hj hkseg hkj]
      intro hinf
      rcases phData_infix_extract k kk _ hkseg hkk hinf with heq | hi
      · exact hkne heq
      · exact ih hnrest hi

theorem string_eq_of_data (s t : String) (h : s.data = t.data) : s = t := by
  cases s; cases t; exact congrArg String.mk h

theorem placeholder_phData (k : String) : placeholder k = phData k.data := rfl

theorem render_foldl_data (context : List (String × String)) :
    ∀ s : String,
      (context.foldl (fun s kv => replaceAllStr s (String.mk (placeholder kv.1)) kv.2) s).data
        = context.foldl (fun acc kv => strReplace (placeholder kv.1) kv.2.data acc) s.data := by
  induction context with
  | nil => intro s; rfl
  | cons kv rest ih =>
    intro s
    rw [List.foldl_cons, List.foldl_cons, ih]
    rfl

theorem fold_preserve_absent (context : List (String × String)) (k : String)
    (hk : wfKey k) (hwf : ∀ kv ∈ context, wfKey kv.1) (habs : k ∉ context.map Prod.fst) :
    ∀ s : List Char, placeholder k <:+: s →
      placeholder k <:+: context.foldl (fun acc kv => strReplace (placeholder kv.1) kv.2.data acc) s := by
  induction context with
  | nil => intro s h; simpa using h
  | cons kv rest ih =>
    intro s h
    rw [List.foldl_cons]
    apply ih (fun x hx => hwf x (List.mem_cons_of_mem _ hx)) (fun hm => habs (by simp [hm]))
    have hne : kv.1.data ≠ k.data := by
      intro hd
      exact habs (by simp [string_eq_of_data kv.1 k hd])
    exact phData_infix_strReplace kv.1.data k.data kv.2.data (hwf kv (by simp)) hk hne
      s.length s le_rfl h

theorem fold_clean (context : List (String × String))
    (hwf : ∀ kv ∈ context, wfKey kv.1 ∧ braceFree kv.2.data) :
    ∀ s, Clean s →
      Clean (context.foldl (fun acc kv => strReplace (placeholder kv.1) kv.2.data acc) s) := by
  induction context with
  | nil => intro s hs; simpa using hs
  | cons kv rest ih =>
    intro s hs
    rw [List.foldl_cons]
    exact ih (fun x hx => hwf x (List.mem_cons_of_mem _ hx)) _
      (clean_strReplace kv.1.data kv.2.data (hwf kv (by simp)).1 (hwf kv (by simp)).2 s hs)

theorem fold_preserve_noinfix (context : List (String × String)) (k : String)
    (hk : wfKey k) (hwf : ∀ kv ∈ context, wfKey kv.1 ∧ braceFree kv.2.data) :
    ∀ s, Clean s → ¬ placeholder k <:+: s →
      ¬ placeholder k <:+: context.foldl (fun acc kv => strReplace (placeholder kv.1) kv.2.data acc) s := by
  induction context with
  | nil => intro s _ hn h; exact hn (by simpa using h)
  | cons kv rest ih =>
    intro s hs hn
    rw [List.foldl_cons]
    exact ih (fun x hx => hwf x (List.mem_cons_of_mem _ hx)) _
      (clean_strReplace kv.1.data kv.2.data (hwf kv (by simp)).1 (hwf kv (by simp)).2 s hs)
      (strReplace_no_other k.data kv.1.data kv.2.data hk (hwf kv (by simp)).1
        (hwf kv (by simp)).2 s hs hn)

theorem fold_kill (context : List (String × String))
    (hwf : ∀ kv ∈ context, wfKey kv.1 ∧ braceFree kv.2.data) :
    ∀ s, Clean s → ∀ kv ∈ context,
      ¬ placeholder kv.1 <:+: context.foldl (fun acc kv => strReplace (placeholder kv.1) kv.2.data acc) s := by
  induction context with
  | nil =>
    intro s _ kv hm
    simp at hm
  | cons kv₀ rest ih =>
    intro s hs kv hm
    rw [List.foldl_cons]
    have hs₁ : Clean (strReplace (placeholder kv₀.1) kv₀.2.data s) :=
      clean_strReplace kv₀.1.data kv₀.2.data (hwf kv₀ (by simp)).1 (hwf kv₀ (by simp)).2 s hs
    rcases List.mem_cons.mp hm with he | hm'
    · subst he
      exact fold_preserve_noinfix rest kv.1 (hwf kv (by simp)).1
        (fun x hx => hwf x (List.mem_cons_of_mem _ hx)) _ hs₁
        (strReplace_no_self kv.1.data kv.2.data (hwf kv (by simp)).1 (hwf kv (by simp)).2 s hs)
    · exact ih (fun x hx => hwf x (List.mem_cons_of_mem _ hx)) _ hs₁ kv hm'

/-- C7: rendering substitutes placeholders of context keys and leaves
the rest alone.  For any template and any context whose keys are
well-formed (nonempty, brace-free, as the placeholder syntax
prescribes): (1) a placeholder whose key is absent from the context
and occurs in the subject or body still occurs, verbatim, in the
rendered subject or body, and rendering never raises (it is a total
function); (2) when the template text is in placeholder syntax
(`Clean`) and the stringified context values are brace-free, no
placeholder of any present key survives in the rendered subject or
body — every occurrence was substituted; (3) concretely, rendering a
body `"Hi \x7b\x7bname\x7d\x7d, status \x7b\x7bstatus\x7d\x7d"` with
context `\x7bname: "Alice"\x7d` yields
`"Hi Alice, status \x7b\x7bstatus\x7d\x7d"`, the unresolved
placeholder left verbatim. -/
theorem c7_render_placeholder_semantics (t : NotificationTemplate) (context : List (String × String))
    (hkeys : ∀ kv ∈ context, wfKey kv.1) :
    (∀ k : String, wfKey k → k ∉ context.map Prod.fst →
        (placeholder k <:+: t.subject.data →
          placeholder k <:+: ((t.render context).1).data) ∧
        (placeholder k <:+: t.body.data →
          placeholder k <:+: ((t.render context).2).data)) ∧
    ((∀ kv ∈ context, braceFree kv.2.data) → Clean t.subject.data → Clean t.body.data →
        ∀ kv ∈ context, ¬ placeholder kv.1 <:+: ((t.render context).1).data ∧
          ¬ placeholder kv.1 <:+: ((t.render context).2).data) ∧
    (NotificationTemplate.render
        { name := "greeting", subject := "s",
          body := String.mk ("Hi ".data ++ placeholder "name" ++ ", status ".data ++
            placeholder "status") }
        [("name", "Alice")] =
      ("s", String.mk ("Hi Alice, status ".data ++ placeholder "status"))) := by
  refine ⟨?_, ?_, by decide⟩
  · intro k hk habs
    constructor
    · intro hin
      show placeholder k <:+:
        (context.foldl (fun s kv => replaceAllStr s (String.mk (placeholder kv.1)) kv.2) t.subject).data
      rw [render_foldl_data]
      exact fold_preserve_absent context k hk hkeys habs _ hin
    · intro hin
      show placeholder k <:+:
        (context.foldl (fun b kv => replaceAllStr b (String.mk (placeholder kv.1)) kv.2) t.body).data
      rw [render_foldl_data]
      exact fold_preserve_absent context k hk hkeys habs _ hin
  · intro hvals hcs hcb kv hm
    constructor
    · show ¬ placeholder kv.1 <:+:
        (context.foldl (fun s kv => replaceAllStr s (String.mk (placeholder kv.1)) kv.2) t.subject).data
      rw [render_foldl_data]
      exact fold_kill context (fun x hx => ⟨hkeys x hx, hvals x hx⟩) _ hcs kv hm
    · show ¬ placeholder kv.1 <:+:
        (context.foldl (fun b kv => replaceAllStr b (String.mk (placeholder kv.1)) kv.2) t.body).data
      rw [render_foldl_data]
      exact fold_kill context (fun x hx => ⟨hkeys x hx, hvals x hx⟩) _ hcb kv hm


/-- Witness for C7 at the spec's example template and context: the
absent key's placeholder survives in the rendered body, and the
present key's placeholder does not. -/
theorem c7_render_placeholder_semantics_witness :
    placeholder "status" <:+: ((cx_template.render [("name", "Alice")]).2).data ∧
    ¬ placeholder "name" <:+: ((cx_template.render [("name", "Alice")]).2).data := by
  have hcs : Clean cx_template.subject.data := .chr (by decide) .nil
  have hcb : Clean cx_template.body.data :=
    .chr (by decide) (.chr (by decide) (.chr (by decide)
      (@Clean.seg "name".data (by decide) _
        (.chr (by decide) (.chr (by decide) (.chr (by decide) (.chr (by decide)
          (.chr (by decide) (.chr (by decide) (.chr (by decide) (.chr (by decide)
            (.chr (by decide)
              (@Clean.seg "status".data (by decide) _ Clean.nil)))))))))))))
  exact ⟨((c7_render_placeholder_semantics cx_template [("name", "Alice")] (by decide)).1
            "status" (by decide) (by decide)).2 (by decide),
         ((c7_render_placeholder_semantics cx_template [("name", "Alice")] (by decide)).2.1
            (by decide) hcs hcb ("name", "Alice") (by simp)).2⟩

/-! Persistence-layer round-trip lemmas (claim C10). -/

theorem digitChar_isDigit (d : Nat) (hd : d < 10) : (digitChar d).isDigit = true := by
  interval_cases d <;> decide

theorem digitChar_toNat (d : Nat) (hd : d < 10) : (digitChar d).toNat - 48 = d := by
  interval_cases d <;> decide

theorem readNumAux_pad (w : Nat) :
    ∀ (acc n : Nat) (rest : List Char), n < 10 ^ w →
      readNumAux acc w (padNum w n ++ rest) = some (acc * 10 ^ w + n, rest) := by
  induction w with
  | zero =>
    intro acc n rest hn
    have hn0 : n = 0 := Nat.lt_one_iff.mp hn
    subst hn0
    simp [padNum, readNumAux]
  | succ w ih =>
    intro acc n rest hn
    have hdiv : n / 10 ^ w < 10 := by
      rw [Nat.div_lt_iff_lt_mul (Nat.pos_pow_of_pos w (by norm_num))]
      calc n < 10 ^ (w + 1) := hn
        _ = 10 * 10 ^ w := by ring
        _ ≤ 10 * 10 ^ w := le_rfl
    rw [padNum]
    rw [List.cons_append, readNumAux]
    rw [if_pos (digitChar_isDigit _ hdiv)]
    rw [digitChar_toNat _ hdiv]
    rw [ih (acc * 10 + n / 10 ^ w) (n % 10 ^ w) rest
      (Nat.mod_lt _ (Nat.pos_pow_of_pos w (by norm_num)))]
    have hdm : 10 ^ w * (n / 10 ^ w) + n % 10 ^ w = n := Nat.div_add_mod n (10 ^ w)
    have harith : (acc * 10 + n / 10 ^ w) * 10 ^ w + n % 10 ^ w = acc * 10 ^ (w + 1) + n := by
      calc (acc * 10 + n / 10 ^ w) * 10 ^ w + n % 10 ^ w
          = acc * (10 * 10 ^ w) + (10 ^ w * (n / 10 ^ w) + n % 10 ^ w) := by ring
        _ = acc * (10 * 10 ^ w) + n := by rw [hdm]
        _ = acc * 10 ^ (w + 1) + n := by ring
    rw [harith]

theorem readNum_pad (w n : Nat) (rest : List Char) (hn : n < 10 ^ w) :
    readNum w (padNum w n ++ rest) = some (n, rest) := by
  rw [readNum, readNumAux_pad w 0 n rest hn]
  simp

theorem expectChar_cons (c : Char) (rest : List Char) : expectChar c (c :: rest) = some rest := by
  simp [expectChar]

set_option maxHeartbeats 1000000 in
theorem fromiso_iso_roundtrip (d : DateTime) (h : wfDateTime d) :
    fromisoformat (isoformat d) = some d := by
  obtain ⟨h1, h2, h3, h4, h5, h6, h7⟩ := h
  rw [show (10000 : Nat) = 10 ^ 4 from by norm_num] at h1
  rw [show (100 : Nat) = 10 ^ 2 from by norm_num] at h2 h3 h4 h5 h6
  rw [show (1000000 : Nat) = 10 ^ 6 from by norm_num] at h7
  rw [fromisoformat, isoformat]
  show fromisoChars (isoChars d) = some d
  rw [isoChars, fromisoChars]
  by_cases hms : d.microsecond = 0
  · rw [if_pos hms]
    simp only [Option.bind_eq_bind, readNum_pad _ _ _ h1, Option.some_bind, expectChar_cons,
      readNum_pad _ _ _ h2, readNum_pad _ _ _ h3, readNum_pad _ _ _ h4,
      readNum_pad _ _ _ h5, readNum_pad _ _ _ h6]
    rw [← hms]
  · rw [if_neg hms]
    have hcons : ('.' :: padNum 6 d.microsecond) = '.' :: (padNum 6 d.microsecond ++ []) := by
      simp
    rw [hcons]
    simp only [Option.bind_eq_bind, readNum_pad _ _ _ h1, Option.some_bind, expectChar_cons,
      readNum_pad _ _ _ h2, readNum_pad _ _ _ h3, readNum_pad _ _ _ h4,
      readNum_pad _ _ _ h5, readNum_pad _ _ _ h6, readNum_pad _ _ _ h7]

theorem readJString_escChars (s : List Char) :
    ∀ (fuel : Nat) (rest : List Char), (escChars s).length < fuel →
      readJStringAux fuel (escChars s ++ '"' :: rest) = some (s, rest) := by
  induction s with
  | nil =>
    intro fuel rest hf
    match fuel with
    | f + 1 =>
      rw [show escChars [] ++ '"' :: rest = '"' :: rest from rfl]
      simp [readJStringAux]
  | cons c cs ih =>
    intro fuel rest hf
    by_cases hc : c = '"' ∨ c = '\\'
    · have hesc : escChars (c :: cs) = '\\' :: c :: escChars cs := by
        rw [escChars, if_pos hc]
      rw [hesc] at hf ⊢
      match fuel with
      | f + 1 =>
        rw [List.cons_append]
        simp only [readJStringAux, if_true]
        have hlt : (escChars cs).length < f := by
          simp only [List.length_cons] at hf
          omega
        show (if c = '"' ∨ c = '\\' then
            Option.map (fun p => (c :: p.1, p.2))
              (readJStringAux f (escChars cs ++ '"' :: rest))
          else none) = some (c :: cs, rest)
        rw [if_pos hc, ih f rest hlt]
        rfl
    · have hesc : escChars (c :: cs) = c :: escChars cs := by
        rw [escChars, if_neg hc]
      push_neg at hc
      rw [hesc] at hf ⊢
      match fuel with
      | f + 1 =>
        rw [List.cons_append]
        simp only [readJStringAux]
        rw [if_neg hc.1, if_neg hc.2]
        have hlt : (escChars cs).length < f := by
          simp only [List.length_cons] at hf
          omega
        rw [ih f rest hlt]
        rfl

theorem sepList_length_ge (l : List String) :
    l.length ≤ (sepList (l.map jstr)).length := by
  match l with
  | [] => simp [sepList]
  | [s] =>
    simp only [List.map_cons, List.map_nil, sepList, jstr, List.length_cons]
    simp
  | s₁ :: s₂ :: rest =>
    have ih := sepList_length_ge (s₂ :: rest)
    simp only [List.map_cons, sepList, jstr] at ih ⊢
    simp only [List.length_cons, List.length_append] at ih ⊢
    omega

theorem jstr_append (s : String) (x : List Char) :
    jstr s ++ x = '"' :: (escChars s.data ++ '"' :: x) := by
  simp [jstr]

theorem readStrItems_sep (l : List String) (hne : l ≠ []) :
    ∀ (fuel : Nat) (tail : List Char), l.length ≤ fuel →
      readStrItems fuel (sepList (l.map jstr) ++ ']' :: tail) = some (l, tail) := by
  match l with
  | [s] =>
    intro fuel tail hf
    match fuel with
    | f + 1 =>
      simp only [List.map_cons, List.map_nil, sepList]
      rw [jstr_append]
      simp only [readStrItems, if_true]
      rw [readJString_escChars s.data _ (']' :: tail)
        (by simp only [List.length_append, List.length_cons]; omega)]
      rfl
  | s₁ :: s₂ :: rest =>
    intro fuel tail hf
    match fuel with
    | f + 1 =>
      have ih := readStrItems_sep (s₂ :: rest) (by simp) f tail
        (by simp only [List.length_cons] at hf ⊢; omega)
      simp only [List.map_cons, sepList]
      rw [List.append_assoc, jstr_append]
      simp only [readStrItems, if_true]
      rw [show (',' :: ' ' :: sepList (jstr s₂ :: List.map jstr rest)) ++ ']' :: tail =
        ',' :: ' ' :: (sepList (jstr s₂ :: List.map jstr rest) ++ ']' :: tail) from rfl]
      rw [readJString_escChars s₁.data _ _
        (by simp only [List.length_append, List.length_cons]; omega)]
      simp only [List.map_cons] at ih
      show Option.map (fun p => (String.mk s₁.data :: p.1, p.2))
        (readStrItems f (sepList (jstr s₂ :: List.map jstr rest) ++ ']' :: tail)) =
        some (s₁ :: s₂ :: rest, tail)
      rw [ih]
      rfl

theorem loadsStrList_dumps (l : List String) :
    loadsStrList (String.mk (dumpsStrList l)) = some l := by
  match l with
  | [] => rfl
  | s :: rest =>
    have hlen := sepList_length_ge (s :: rest)
    show (if sepList ((s :: rest).map jstr) ++ [']'] = [']'] then some []
      else
        match readStrItems (sepList ((s :: rest).map jstr) ++ [']']).length
            (sepList ((s :: rest).map jstr) ++ [']']) with
        | some (l, []) => some l
        | _ => none) = some (s :: rest)
    rw [if_neg (by
      intro he
      have := congrArg List.length he
      simp only [List.length_append, List.length_cons, List.length_nil] at this
      simp only [List.length_cons] at hlen
      omega)]
    rw [show sepList ((s :: rest).map jstr) ++ [']'] =
      sepList ((s :: rest).map jstr) ++ ']' :: [] from rfl]
    rw [readStrItems_sep (s :: rest) (by simp) _ []
      (by simp only [List.length_append, List.length_cons]
          simp only [List.length_cons] at hlen
          omega)]

theorem sepPairs_length_ge (m : List (String × String)) :
    m.length ≤ (sepList (m.map (fun kv => jstr kv.1 ++ ':' :: ' ' :: jstr kv.2))).length := by
  match m with
  | [] => simp [sepList]
  | [kv] =>
    simp only [List.map_cons, List.map_nil, sepList, jstr, List.length_cons,
      List.length_append, List.length_nil]
    omega
  | kv₁ :: kv₂ :: rest =>
    have ih := sepPairs_length_ge (kv₂ :: rest)
    simp only [List.map_cons, sepList] at ih ⊢
    simp only [List.length_cons, List.length_append] at ih ⊢
    omega

theorem readStrPairs_sep (m : List (String × String)) (hne : m ≠ []) :
    ∀ (fuel : Nat) (tail : List Char), m.length ≤ fuel →
      readStrPairs fuel
          (sepList (m.map (fun kv => jstr kv.1 ++ ':' :: ' ' :: jstr kv.2)) ++ '}' :: tail) =
        some (m, tail) := by
  match m with
  | [(k, v)] =>
    intro fuel tail hf
    match fuel with
    | f + 1 =>
      simp only [List.map_cons, List.map_nil, sepList]
      rw [List.append_assoc, jstr_append]
      simp only [readStrPairs, if_true]
      rw [show (':' :: ' ' :: jstr v) ++ '}' :: tail =
        ':' :: ' ' :: '"' :: (escChars v.data ++ '"' :: '}' :: tail) from by simp [jstr]]
      rw [readJString_escChars k.data _ _
        (by simp only [List.length_append, List.length_cons]; omega)]
      show (match readJStringAux (escChars v.data ++ '"' :: '}' :: tail).length
          (escChars v.data ++ '"' :: '}' :: tail) with
        | none => none
        | some (w, cs₃) =>
          match cs₃ with
          | '}' :: rest => some ([(String.mk k.data, String.mk w)], rest)
          | ',' :: ' ' :: cs₄ =>
            Option.map (fun p => ((String.mk k.data, String.mk w) :: p.1, p.2))
              (readStrPairs f cs₄)
          | x => none) = some ([(k, v)], tail)
      rw [readJString_escChars v.data _ _
        (by simp only [List.length_append, List.length_cons]; omega)]
      rfl
  | (k, v) :: kv₂ :: rest =>
    intro fuel tail hf
    match fuel with
    | f + 1 =>
      have ih := readStrPairs_sep (kv₂ :: rest) (by simp) f tail
        (by simp only [List.length_cons] at hf ⊢; omega)
      simp only [List.map_cons, sepList] at ih ⊢
      rw [List.append_assoc, List.append_assoc, jstr_append]
      simp only [readStrPairs, if_true]
      rw [readJString_escChars k.data _ _
        (by simp only [List.length_append, List.length_cons]; omega)]
      rw [show (':' :: ' ' :: jstr v) ++
          ((',' :: ' ' :: sepList ((jstr kv₂.1 ++ ':' :: ' ' :: jstr kv₂.2) ::
            List.map (fun kv => jstr kv.1 ++ ':' :: ' ' :: jstr kv.2) rest)) ++ '}' :: tail) =
          ':' :: ' ' :: '"' :: (escChars v.data ++ '"' ::
            ((',' :: ' ' :: sepList ((jstr kv₂.1 ++ ':' :: ' ' :: jstr kv₂.2) ::
              List.map (fun kv => jstr kv.1 ++ ':' :: ' ' :: jstr kv.2) rest)) ++ '}' :: tail))
        from by simp [jstr]]
      show (match readJStringAux
          (escChars v.data ++ '"' ::
            ((',' :: ' ' :: sepList ((jstr kv₂.1 ++ ':' :: ' ' :: jstr kv₂.2) ::
              List.map (fun kv => jstr kv.1 ++ ':' :: ' ' :: jstr kv.2) rest)) ++ '}' :: tail)).length
          (escChars v.data ++ '"' ::
            ((',' :: ' ' :: sepList ((jstr kv₂.1 ++ ':' :: ' ' :: jstr kv₂.2) ::
              List.map (fun kv => jstr kv.1 ++ ':' :: ' ' :: jstr kv.2) rest)) ++ '}' :: tail)) with
        | none => none
        | some (w, cs₃) =>
          match cs₃ with
          | '}' :: rst => some ([(String.mk k.data, String.mk w)], rst)
          | ',' :: ' ' :: cs₄ =>
            Option.map (fun p => ((String.mk k.data, String.mk w) :: p.1, p.2))
              (readStrPairs f cs₄)
          | x => none) = some ((k, v) :: kv₂ :: rest, tail)
      rw [readJString_escChars v.data _ _
        (by simp only [List.length_append, List.length_cons]; omega)]
      show Option.map (fun p => ((String.mk k.data, String.mk v.data) :: p.1, p.2))
        (readStrPairs f
          (sepList ((jstr kv₂.1 ++ ':' :: ' ' :: jstr kv₂.2) ::
            List.map (fun kv => jstr kv.1 ++ ':' :: ' ' :: jstr kv.2) rest) ++ '}' :: tail)) =
        some ((k, v) :: kv₂ :: rest, tail)
      rw [ih]
      rfl

theorem loadsStrMap_dumps (m : List (String × String)) :
    loadsStrMap (String.mk (dumpsStrMap m)) = some m := by
  match m with
  | [] => rfl
  | kv :: rest =>
    have hlen := sepPairs_length_ge (kv :: rest)
    show (if sepList ((kv :: rest).map (fun kv => jstr kv.1 ++ ':' :: ' ' :: jstr kv.2)) ++
          ['}'] = ['}'] then some []
      else
        match readStrPairs
            (sepList ((kv :: rest).map (fun kv => jstr kv.1 ++ ':' :: ' ' :: jstr kv.2)) ++
              ['}']).length
            (sepList ((kv :: rest).map (fun kv => jstr kv.1 ++ ':' :: ' ' :: jstr kv.2)) ++
              ['}']) with
        | some (m, []) => some m
        | _ => none) = some (kv :: rest)
    rw [if_neg (by
      intro he
      have := congrArg List.length he
      simp only [List.length_append, List.length_cons, List.length_nil] at this
      simp only [List.length_cons] at hlen
      omega)]
    rw [show sepList ((kv :: rest).map (fun kv => jstr kv.1 ++ ':' :: ' ' :: jstr kv.2)) ++
      ['}'] =
      sepList ((kv :: rest).map (fun kv => jstr kv.1 ++ ':' :: ' ' :: jstr kv.2)) ++
      '}' :: [] from rfl]
    rw [readStrPairs_sep (kv :: rest) (by simp) _ []
      (by simp only [List.length_append, List.length_cons]
          simp only [List.length_cons] at hlen
          omega)]

theorem levelOfValue_value (l : NotificationLevel) :
    NotificationLevel.ofValue l.value = some l := by
  cases l <;> rfl

theorem statusOfValue_value (s : NotificationStatus) :
    NotificationStatus.ofValue s.value = some s := by
  cases s <;> rfl

theorem mk_cons_ne_empty (c : Char) (l : List Char) :
    (String.mk (c :: l)).isEmpty = false := by
  apply Bool.eq_false_iff.mpr
  intro h
  have h2 := (String.isEmpty_iff (String.mk (c :: l))).mp h
  have h3 := congrArg String.data h2
  simp at h3

theorem dumpsStrMap_ne_empty (m : List (String × String)) :
    (String.mk (dumpsStrMap m)).isEmpty = false := by
  rw [show dumpsStrMap m =
    '{' :: (sepList (m.map (fun kv => jstr kv.1 ++ ':' :: ' ' :: jstr kv.2)) ++ ['}'])
    from rfl]
  exact mk_cons_ne_empty _ _

theorem row_to_encode (n : Notification DateTime) (h : wfNotificationRecord n) :
    row_to_notification (encodeRow n) = some n := by
  obtain ⟨h1, h2, h3, h4, h5, h6⟩ := h
  obtain ⟨nid, nlevel, nsubject, nbody, nrecipients, nstatus, ncreated, nsent,
    nretry, nmax, nnext, nerr, nmeta⟩ := n
  simp only at h1 h2 h3
  rw [row_to_notification]
  simp only [encodeRow, Option.bind_eq_bind, levelOfValue_value, Option.some_bind,
    loadsStrList_dumps, statusOfValue_value, fromiso_iso_roundtrip ncreated h1,
    dumpsStrMap_ne_empty, loadsStrMap_dumps]
  cases nsent with
  | none =>
    cases nnext with
    | none =>
      simp only [Option.map_none', Option.some_bind, Bool.false_eq_true, if_false]
    | some d =>
      simp only [Option.map_none', Option.map_some', Option.some_bind,
        fromiso_iso_roundtrip d (h3 d rfl), Bool.false_eq_true, if_false]
  | some d =>
    cases nnext with
    | none =>
      simp only [Option.map_none', Option.map_some', Option.some_bind,
        fromiso_iso_roundtrip d (h2 d rfl), Bool.false_eq_true, if_false]
    | some d₂ =>
      simp only [Option.map_some', Option.some_bind,
        fromiso_iso_roundtrip d (h2 d rfl), fromiso_iso_roundtrip d₂ (h3 d₂ rfl),
        Bool.false_eq_true, if_false]

/-- C10: persisting a notification and reading it back returns it
unchanged, field for field — the enum values, the JSON-serialized
recipients and metadata, the ISO-formatted datetime fields (absent
optional datetimes included) and the plain columns all survive the
store's serialization, on the domain where this file's serialization
model is exact (`wfNotificationRecord`). -/
theorem c10_save_get_roundtrip (db : List (String × DbRow)) (n : Notification DateTime)
    (hwf : wfNotificationRecord n) :
    get_notification (save_notification db n) n.id = some n := by
  rw [get_notification, save_notification]
  rw [List.find?_cons_of_pos _ (by simp)]
  rw [Option.some_bind]
  exact row_to_encode n hwf

/-- Witness for C10 at a store row with every optional shape present
(microseconds, an unset `sent_at`, a set `next_retry`, two recipients
and a two-entry metadata dict). -/
theorem c10_save_get_roundtrip_witness :
    wfNotificationRecord cx_dbn ∧
    get_notification (save_notification [] cx_dbn) cx_dbn.id = some cx_dbn :=
  ⟨by decide, c10_save_get_roundtrip [] cx_dbn (by decide)⟩
